import Mathlib

/-!
Shallow embedding of the NITK publication-and-citation analyzer (src/app.py).

The pipeline under verification: `extract_nitk_affiliation` splits a raw
affiliation cell on `;` plus optional whitespace and returns the first
segment containing the institution name case-insensitively (stripped);
`label_affiliation` turns that into a per-row category; the year and
cited-by columns are normalized with `str.extract` regexes; groupby
reports and a "Total" rollup are concatenated into one table.

Missing cells of the input table are modelled as `none`; pandas `astype(str)`
renders them as the string "nan", which `pyStr` reproduces.
-/

/-- Model of the regex class `\s` (ASCII whitespace, as used by `re.split`
and `str.strip` on the data this app handles). -/
def isSpacePy (c : Char) : Bool :=
  decide (c = ' ' ∨ c = '\t' ∨ c = '\n' ∨ c = '\r' ∨ c = '\x0b' ∨ c = '\x0c')

/-- Model of the regex class `\d` (ASCII decimal digits). -/
def isDigitC (c : Char) : Bool :=
  decide ('0' ≤ c ∧ c ≤ '9')

/-- Worker for `splitSemi`. The flag records that the scanner sits right
after a delimiter semicolon and is still consuming the `\s*` part of the
delimiter. -/
def splitSemiGo : Bool → List Char → List (List Char)
  | _, [] => [[]]
  | skip, c :: rest =>
    if skip ∧ isSpacePy c then
      splitSemiGo true rest
    else if c = ';' then
      [] :: splitSemiGo true rest
    else
      match splitSemiGo false rest with
      | [] => [[c]]
      | s :: ss => (c :: s) :: ss

/-- Model of `re.split(r";\s*", text)`: cut at every semicolon and consume the
whitespace run that follows it. -/
def splitSemi (cs : List Char) : List (List Char) :=
  splitSemiGo false cs

/-- Unanchored substring test: does `needle` occur contiguously in the second
argument? This models `re.search` with a plain-text pattern. -/
def hasSubstr (needle : List Char) : List Char → Bool
  | [] => needle.isPrefixOf []
  | c :: t => needle.isPrefixOf (c :: t) || hasSubstr needle t

/-- The institution pattern hard-coded in `extract_nitk_affiliation`. -/
def nitkName : String := "National Institute of Technology Karnataka"

/-- Lowercasing a character list; models `re.IGNORECASE` comparison by
normalizing both sides. -/
def lowerL (cs : List Char) : List Char := cs.map Char.toLower

/-- Case-insensitive unanchored search for the institution name in one
affiliation segment (the `re.search(..., re.IGNORECASE)` call). -/
def matchesNITK (s : String) : Bool :=
  hasSubstr (lowerL nitkName.data) (lowerL s.data)

/-- Model of Python `str.strip()`: remove leading and trailing whitespace. -/
def stripPy (cs : List Char) : List Char :=
  ((cs.dropWhile isSpacePy).reverse.dropWhile isSpacePy).reverse

/-- Embedding of `extract_nitk_affiliation` (src/app.py lines 60-71): `None`
for a missing cell, otherwise the first semicolon-delimited segment whose
text contains the institution name case-insensitively, stripped; `None`
when no segment matches. -/
def extract_nitk_affiliation (x : Option String) : Option String :=
  match x with
  | none => none
  | some t =>
    (((splitSemi t.data).map String.mk).find? matchesNITK).map
      (fun p => String.mk (stripPy p.data))

/-- Embedding of `label_affiliation` (src/app.py lines 90-96), applied to the
raw affiliation cell and the derived `NITK_Affiliation` value. -/
def labelAffiliation (affil nitk : Option String) : String :=
  match affil with
  | none => "Blank Affiliation"
  | some _ =>
    match nitk with
    | some s => s
    | none => "No NITK Mention"

/-- Model of pandas `astype(str)` on a single cell: a missing value renders
as the string "nan". -/
def pyStr (x : Option String) : String :=
  match x with
  | none => "nan"
  | some s => s

/-- Leftmost match of the regex `\d{4}`: the first position at which four
consecutive digit characters start, returned as a 4-character string. -/
def findRun4 : List Char → Option String
  | [] => none
  | c :: rest =>
    if 4 ≤ (c :: rest).length ∧ ((c :: rest).take 4).all isDigitC then
      some (String.mk ((c :: rest).take 4))
    else
      findRun4 rest

/-- Embedding of the year normalization (src/app.py lines 80-85):
`astype(str).str.extract(r"(\d{4})")[0].fillna("Unknown")`. -/
def normalizeYear (x : Option String) : String :=
  match findRun4 (pyStr x).data with
  | some s => s
  | none => "Unknown"

/-- Leftmost match of the regex `\d+`: the first maximal run of one or more
digit characters. -/
def extractDigits : List Char → Option (List Char)
  | [] => none
  | c :: rest =>
    if isDigitC c then
      some (c :: rest.takeWhile isDigitC)
    else
      extractDigits rest

/-- Decimal value of a digit string, as computed by Python `int`. -/
def digitsToNat (ds : List Char) : Nat :=
  ds.foldl (fun n c => n * 10 + (c.toNat - 48)) 0

/-- Embedding of the cited-by normalization (src/app.py lines 129-135):
`astype(str).str.extract(r"(\d+)")[0].fillna(0).astype(int)`. -/
def normalizeCitation (x : Option String) : Nat :=
  match extractDigits (pyStr x).data with
  | some ds => digitsToNat ds
  | none => 0

/-- Lexicographic strict order on character lists, by code point, shorter
prefix first: the comparison Python uses on `str` values and hence the one
pandas `sort_values` applies to the normalized year column. -/
def lexLtB : List Char → List Char → Bool
  | [], [] => false
  | [], _ :: _ => true
  | _ :: _, [] => false
  | a :: as, b :: bs => decide (a < b) || (decide (a = b) && lexLtB as bs)

/-- Strict string comparison used by the report sorts. -/
def strLt (a b : String) : Bool := lexLtB a.data b.data

/-- One input record; the four cells the UI maps (affiliation text, year,
department, cited-by), each possibly missing. -/
structure Row where
  affil : Option String
  year : Option String
  dept : Option String
  cited : Option String
  deriving DecidableEq

/-- State of one record after the whole pipeline ran over the dataframe:
`NITK_Affiliation` and `Affiliation_Category` appended, the year and
cited-by columns overwritten by their normalized values, the other columns
untouched. -/
structure RowF where
  affil : Option String
  nitk : Option String
  year : String
  category : String
  dept : Option String
  cited : Nat
  deriving DecidableEq

/-- One row of the affiliation report tables: a year key (or the literal
"Total"), an `Affiliation_Category` value, and the group size. -/
structure ARow where
  year : String
  cat : String
  count : Nat
  deriving DecidableEq

/-- Per-row effect of the pipeline (lines 73-75, 80-85, 90-98 and 129-135 of
src/app.py, all of which act elementwise on the dataframe). -/
def processRow (r : Row) : RowF :=
  { affil := r.affil
    nitk := extract_nitk_affiliation r.affil
    year := normalizeYear r.year
    category := labelAffiliation r.affil (extract_nitk_affiliation r.affil)
    dept := r.dept
    cited := normalizeCitation r.cited }

/-- The dataframe after classification and normalization; the state all the
reports are computed from. -/
def process (df : List Row) : List RowF := df.map processRow

/-- Grouping key of the year-wise affiliation report. -/
def keyOf (r : RowF) : String × String := (r.year, r.category)

/-- Non-strict lexicographic order on `(year, category)` keys, the order
pandas `groupby` emits groups in. -/
def keyLeB (a b : String × String) : Bool :=
  strLt a.1 b.1 || (a.1 == b.1 && !strLt b.2 a.2)

/-- Sort order of `yearwise_affiliation`: year ascending (string comparison),
then count descending. -/
def rowLeB (a b : ARow) : Bool :=
  strLt a.year b.year || (a.year == b.year && decide (b.count ≤ a.count))

/-- Sort order of `total_affiliation`: count descending. -/
def cntGeB (a b : ARow) : Bool := decide (b.count ≤ a.count)

/-- Non-strict string order for sorting the rollup's category keys. -/
def catLeB (a b : String) : Bool := !strLt b a

/-- Propositional forms of the sort orders, for `List.insertionSort`. -/
def keyLe (a b : String × String) : Prop := keyLeB a b = true

def rowLe (a b : ARow) : Prop := rowLeB a b = true

def cntGe (a b : ARow) : Prop := cntGeB a b = true

def catLe (a b : String) : Prop := catLeB a b = true

instance : DecidableRel keyLe := fun a b => instDecidableEqBool (keyLeB a b) true

instance : DecidableRel rowLe := fun a b => instDecidableEqBool (rowLeB a b) true

instance : DecidableRel cntGe := fun a b => instDecidableEqBool (cntGeB a b) true

instance : DecidableRel catLe := fun a b => instDecidableEqBool (catLeB a b) true

/-- Embedding of `yearwise_affiliation` (src/app.py lines 103-108):
`df.groupby([year, "Affiliation_Category"]).size()` (groups listed in
ascending key order), then a stable sort by year ascending, count
descending. -/
def yearwise_affiliation (df : List Row) : List ARow :=
  List.insertionSort rowLe
    ((List.insertionSort keyLe ((process df).map keyOf).dedup).map
      (fun k => ⟨k.1, k.2, ((process df).map keyOf).countP (fun k' => k' = k)⟩))

/-- Embedding of `total_affiliation` (src/app.py lines 110-116):
`df.groupby("Affiliation_Category").size()` sorted by count descending,
with the literal "Total" inserted as the leading year-column value. -/
def total_affiliation (df : List Row) : List ARow :=
  List.insertionSort cntGe
    ((List.insertionSort catLe ((process df).map (fun r => r.category)).dedup).map
      (fun c => ⟨"Total", c, ((process df).map (fun r => r.category)).countP (fun c' => c' = c)⟩))

/-- Embedding of `affiliation_combined` (src/app.py lines 118-121): the two
tables concatenated, per-period rows first. -/
def affiliation_combined (df : List Row) : List ARow :=
  yearwise_affiliation df ++ total_affiliation df

/-- Embedding of `nitk_only` (src/app.py line 169): the rows whose
`NITK_Affiliation` is not null. -/
def nitk_only (df : List Row) : List RowF :=
  (process df).filter (fun r => r.nitk.isSome)

/-- Recognizer for normalized 4-digit year strings. -/
def isYear4 (s : String) : Bool := s.length == 4 && s.data.all isDigitC

example : extract_nitk_affiliation (some "Dept of CSE, National Institute of Technology Karnataka, India; Some Other Univ")
    = some "Dept of CSE, National Institute of Technology Karnataka, India" := by decide
example : extract_nitk_affiliation (some "") = none := by decide
example : extract_nitk_affiliation none = none := rfl
example : labelAffiliation (some "") (extract_nitk_affiliation (some "")) = "No NITK Mention" := by decide
example : normalizeYear (some "Published in 2023, vol 4") = "2023" := by decide
example : normalizeYear (some "no date") = "Unknown" := by decide
example : normalizeYear none = "Unknown" := by decide
example : normalizeYear (some "id 12345") = "1234" := by decide
example : normalizeCitation (some "Cited by: 42") = 42 := by decide
example : normalizeCitation (some "") = 0 := by decide
example : normalizeCitation (some "n/a") = 0 := by decide
example : normalizeCitation none = 0 := by decide
example : normalizeCitation (some "v2: cited 10 times") = 2 := by decide

example :
    yearwise_affiliation
      [⟨some "Foo University", some "2022", none, some "5"⟩,
       ⟨none, some "2021", none, some ""⟩,
       ⟨some "x; National institute of technology karnataka, Surathkal", some "2021", none, some "3"⟩]
    = [⟨"2021", "Blank Affiliation", 1⟩,
       ⟨"2021", "National institute of technology karnataka, Surathkal", 1⟩,
       ⟨"2022", "No NITK Mention", 1⟩] := by decide

example :
    total_affiliation
      [⟨some "Foo University", some "2022", none, some "5"⟩,
       ⟨some "Bar University", some "2021", none, some ""⟩]
    = [⟨"Total", "No NITK Mention", 2⟩] := by decide

example :
    nitk_only [⟨some "Foo University", some "2022", none, some "5"⟩] = [] := by decide

/-! Order properties of `lexLtB` and the sort relations. -/

theorem lexLtB_nil_right : ∀ (l : List Char), lexLtB l [] = false
  | [] => rfl
  | _ :: _ => rfl

theorem lexLtB_irrefl : ∀ (l : List Char), lexLtB l l = false
  | [] => rfl
  | a :: as => by
    simp [lexLtB, lexLtB_irrefl as]

theorem lexLtB_trans : ∀ {a b c : List Char},
    lexLtB a b = true → lexLtB b c = true → lexLtB a c = true
  | [], _ :: _, _ :: _, _, _ => rfl
  | [], [], c, h, _ => by simp [lexLtB] at h
  | _, b, [], _, h2 => by rw [lexLtB_nil_right] at h2; cases h2
  | a :: as, b :: bs, c :: cs, h1, h2 => by
    simp only [lexLtB, Bool.or_eq_true, Bool.and_eq_true, decide_eq_true_eq] at h1 h2 ⊢
    rcases h1 with h1 | ⟨e1, l1⟩ <;> rcases h2 with h2 | ⟨e2, l2⟩
    · exact Or.inl (lt_trans h1 h2)
    · exact Or.inl (e2 ▸ h1)
    · exact Or.inl (e1 ▸ h2)
    · exact Or.inr ⟨e1.trans e2, lexLtB_trans l1 l2⟩

theorem lexLtB_conn : ∀ {a b : List Char},
    lexLtB a b = false → lexLtB b a = false → a = b
  | [], [], _, _ => rfl
  | [], _ :: _, h, _ => by simp [lexLtB] at h
  | _ :: _, [], _, h2 => by simp [lexLtB] at h2
  | a :: as, b :: bs, h1, h2 => by
    simp only [lexLtB, Bool.or_eq_false_iff, Bool.and_eq_false_iff,
      decide_eq_false_iff_not] at h1 h2
    have hab : a = b := le_antisymm (le_of_not_lt h2.1) (le_of_not_lt h1.1)
    subst hab
    rcases h1.2 with h | h
    · simp at h
    · rcases h2.2 with h' | h'
      · simp at h'
      · exact congrArg (a :: ·) (lexLtB_conn h h')

theorem lexLtB_asymm {a b : List Char} (h : lexLtB a b = true) : lexLtB b a = false := by
  cases hba : lexLtB b a with
  | false => rfl
  | true =>
    have := lexLtB_trans h hba
    rw [lexLtB_irrefl] at this
    cases this

theorem strLt_irrefl (a : String) : strLt a a = false := lexLtB_irrefl _

theorem strLt_trans {a b c : String} (h1 : strLt a b = true) (h2 : strLt b c = true) :
    strLt a c = true := lexLtB_trans h1 h2

theorem strLt_conn {a b : String} (h1 : strLt a b = false) (h2 : strLt b a = false) :
    a = b := by
  have h := lexLtB_conn h1 h2
  cases a
  cases b
  exact congrArg String.mk h

theorem strLt_asymm {a b : String} (h : strLt a b = true) : strLt b a = false :=
  lexLtB_asymm h

theorem strLt_not_trans {a b c : String} (h1 : strLt b a = false)
    (h2 : strLt c b = false) : strLt c a = false := by
  cases hca : strLt c a with
  | false => rfl
  | true =>
    cases hab : strLt a b with
    | true => rw [strLt_trans hca hab] at h2; cases h2
    | false =>
      have : a = b := strLt_conn hab h1
      subst this
      rw [hca] at h2
      cases h2

instance : IsTrans (String × String) keyLe := by
  constructor
  intro a b c h1 h2
  simp only [keyLe, keyLeB, Bool.or_eq_true, Bool.and_eq_true, beq_iff_eq,
    Bool.not_eq_true'] at h1 h2 ⊢
  rcases h1 with h1 | ⟨e1, l1⟩ <;> rcases h2 with h2 | ⟨e2, l2⟩
  · exact Or.inl (strLt_trans h1 h2)
  · exact Or.inl (e2 ▸ h1)
  · exact Or.inl (e1 ▸ h2)
  · exact Or.inr ⟨e1.trans e2, strLt_not_trans l1 l2⟩

instance : IsTotal (String × String) keyLe := by
  constructor
  intro a b
  simp only [keyLe, keyLeB, Bool.or_eq_true, Bool.and_eq_true, beq_iff_eq,
    Bool.not_eq_true']
  cases h1 : strLt a.1 b.1 with
  | true => exact Or.inl (Or.inl rfl)
  | false =>
    cases h1' : strLt b.1 a.1 with
    | true => exact Or.inr (Or.inl rfl)
    | false =>
      have e : a.1 = b.1 := strLt_conn h1 h1'
      cases h2 : strLt b.2 a.2 with
      | false => exact Or.inl (Or.inr ⟨e, rfl⟩)
      | true => exact Or.inr (Or.inr ⟨e.symm, strLt_asymm h2⟩)

instance : IsTrans ARow rowLe := by
  constructor
  intro a b c h1 h2
  simp only [rowLe, rowLeB, Bool.or_eq_true, Bool.and_eq_true, beq_iff_eq,
    decide_eq_true_eq] at h1 h2 ⊢
  rcases h1 with h1 | ⟨e1, l1⟩ <;> rcases h2 with h2 | ⟨e2, l2⟩
  · exact Or.inl (strLt_trans h1 h2)
  · exact Or.inl (e2 ▸ h1)
  · exact Or.inl (e1 ▸ h2)
  · exact Or.inr ⟨e1.trans e2, le_trans l2 l1⟩

instance : IsTotal ARow rowLe := by
  constructor
  intro a b
  simp only [rowLe, rowLeB, Bool.or_eq_true, Bool.and_eq_true, beq_iff_eq,
    decide_eq_true_eq]
  cases h1 : strLt a.year b.year with
  | true => exact Or.inl (Or.inl rfl)
  | false =>
    cases h1' : strLt b.year a.year with
    | true => exact Or.inr (Or.inl rfl)
    | false =>
      have e : a.year = b.year := strLt_conn h1 h1'
      rcases Nat.le_total b.count a.count with h2 | h2
      · exact Or.inl (Or.inr ⟨e, h2⟩)
      · exact Or.inr (Or.inr ⟨e.symm, h2⟩)

instance : IsTrans ARow cntGe := by
  constructor
  intro a b c h1 h2
  simp only [cntGe, cntGeB, decide_eq_true_eq] at h1 h2 ⊢
  exact le_trans h2 h1

instance : IsTotal ARow cntGe := by
  constructor
  intro a b
  simp only [cntGe, cntGeB, decide_eq_true_eq]
  exact Nat.le_total b.count a.count

instance : IsTrans String catLe := by
  constructor
  intro a b c h1 h2
  simp only [catLe, catLeB, Bool.not_eq_true'] at h1 h2 ⊢
  exact strLt_not_trans h1 h2

instance : IsTotal String catLe := by
  constructor
  intro a b
  simp only [catLe, catLeB, Bool.not_eq_true']
  cases h : strLt b a with
  | false => exact Or.inl rfl
  | true => exact Or.inr (strLt_asymm h)

/-! Counting lemmas: a groupby's sizes add up to what they partition. -/

theorem countP_or_disj {K : Type} {p q : K → Bool}
    (h : ∀ x, p x = true → q x = true → False) :
    ∀ l : List K, l.countP (fun x => p x || q x) = l.countP p + l.countP q := by
  intro l
  induction l with
  | nil => rfl
  | cons a l ih =>
    simp only [List.countP_cons, ih]
    cases hp : p a <;> cases hq : q a
    · simp [hp, hq]
    · simp [hp, hq]; omega
    · simp [hp, hq]; omega
    · exact (h a hp hq).elim

theorem sum_counts_nodup {K : Type} [DecidableEq K] (l : List K) :
    ∀ m : List K, m.Nodup →
      ((m.map (fun k => l.countP (fun x => x = k))).sum
        = l.countP (fun x => x ∈ m)) := by
  intro m
  induction m with
  | nil =>
    intro _
    simp [List.countP_eq_zero]
  | cons k m ih =>
    intro hnd
    have hk : k ∉ m := (List.nodup_cons.mp hnd).1
    have hm : m.Nodup := (List.nodup_cons.mp hnd).2
    simp only [List.map_cons, List.sum_cons, ih hm]
    have hcong : l.countP (fun x => x ∈ k :: m)
        = l.countP (fun x => (decide (x = k) || decide (x ∈ m))) := by
      apply List.countP_congr
      intro x _
      simp [List.mem_cons]
    have hdisj : ∀ x, decide (x = k) = true → decide (x ∈ m) = true → False :=
      fun x hx1 hx2 => hk (of_decide_eq_true hx1 ▸ of_decide_eq_true hx2)
    rw [hcong, countP_or_disj hdisj l]

theorem sum_dedup_filter {K : Type} [DecidableEq K] (l : List K) (p : K → Bool) :
    (((l.dedup.filter p).map (fun k => l.countP (fun x => x = k))).sum
      = l.countP p) := by
  rw [sum_counts_nodup l _ ((l.nodup_dedup).filter p)]
  apply List.countP_congr
  intro x hx
  cases hp : p x <;>
    simp [List.mem_filter, List.mem_dedup, hx, hp]

theorem sum_dedup_counts {K : Type} [DecidableEq K] (l : List K) :
    ((l.dedup.map (fun k => l.countP (fun x => x = k))).sum = l.length) := by
  have h := sum_dedup_filter l (fun _ => true)
  rw [List.filter_true] at h
  rw [h]
  simp [List.countP_true]

theorem filter_map_comm {α β : Type} (f : α → β) (p : β → Bool) :
    ∀ l : List α, (l.map f).filter p = (l.filter (fun x => p (f x))).map f := by
  intro l
  induction l with
  | nil => rfl
  | cons a l ih =>
    simp only [List.map_cons, List.filter_cons]
    cases hp : p (f a) <;> simp [hp, ih]

/-- C6: the sizes of the per-period `(year, category)` groups add up to the
number of rows of the dataset. -/
theorem yearwise_counts_preserve_total (df : List Row) :
    ((yearwise_affiliation df).map ARow.count).sum = df.length := by
  unfold yearwise_affiliation
  rw [List.Perm.sum_eq (List.Perm.map ARow.count (List.perm_insertionSort rowLe _))]
  rw [List.map_map]
  rw [List.Perm.sum_eq (List.Perm.map _ (List.perm_insertionSort keyLe _))]
  have hcomp : (ARow.count ∘ fun k : String × String =>
      (⟨k.1, k.2, ((process df).map keyOf).countP (fun k' => k' = k)⟩ : ARow))
      = fun k => ((process df).map keyOf).countP (fun k' => k' = k) := rfl
  rw [hcomp]
  have h := sum_dedup_counts ((process df).map keyOf)
  rw [h]
  simp [process]

theorem total_filter_sum (df : List Row) (c : String) :
    (((total_affiliation df).filter (fun r => r.cat = c)).map ARow.count).sum
      = (process df).countP (fun r => r.category = c) := by
  unfold total_affiliation
  rw [List.Perm.sum_eq (List.Perm.map ARow.count
    (List.Perm.filter _ (List.perm_insertionSort cntGe _)))]
  rw [filter_map_comm]
  rw [List.map_map]
  have hcomp : (ARow.count ∘ fun k : String =>
      (⟨"Total", k, ((process df).map (fun r => r.category)).countP (fun c' => c' = k)⟩ : ARow))
      = fun k => ((process df).map (fun r => r.category)).countP (fun c' => c' = k) := rfl
  rw [hcomp]
  rw [List.Perm.sum_eq (List.Perm.map _ (List.Perm.filter _ (List.perm_insertionSort catLe _)))]
  have h := sum_dedup_filter ((process df).map (fun r => r.category)) (fun k => decide (k = c))
  rw [h]
  rw [List.countP_map]
  rfl

theorem yearwise_filter_sum (df : List Row) (c : String) :
    (((yearwise_affiliation df).filter (fun r => r.cat = c)).map ARow.count).sum
      = (process df).countP (fun r => r.category = c) := by
  unfold yearwise_affiliation
  rw [List.Perm.sum_eq (List.Perm.map ARow.count
    (List.Perm.filter _ (List.perm_insertionSort rowLe _)))]
  rw [filter_map_comm]
  rw [List.map_map]
  have hcomp : (ARow.count ∘ fun k : String × String =>
      (⟨k.1, k.2, ((process df).map keyOf).countP (fun k' => k' = k)⟩ : ARow))
      = fun k => ((process df).map keyOf).countP (fun k' => k' = k) := rfl
  rw [hcomp]
  rw [List.Perm.sum_eq (List.Perm.map _ (List.Perm.filter _ (List.perm_insertionSort keyLe _)))]
  have h := sum_dedup_filter ((process df).map keyOf) (fun k => decide (k.2 = c))
  rw [h]
  rw [List.countP_map]
  rfl

/-- C7: for every affiliation category, the count on its rollup row equals
the sum of the counts of the per-period rows carrying that category. -/
theorem rollup_conserves_counts (df : List Row) (c : String) :
    (((total_affiliation df).filter (fun r => r.cat = c)).map ARow.count).sum
      = (((yearwise_affiliation df).filter (fun r => r.cat = c)).map ARow.count).sum := by
  rw [total_filter_sum, yearwise_filter_sum]

theorem total_rows_year (df : List Row) {r : ARow}
    (h : r ∈ total_affiliation df) : r.year = "Total" := by
  unfold total_affiliation at h
  rw [List.mem_insertionSort, List.mem_map] at h
  obtain ⟨k, _, hk⟩ := h
  rw [← hk]

/-- C5: the combined affiliation report is the per-period table followed by
the rollup; the per-period part is sorted by year ascending (string
comparison) then count descending, every rollup row carries "Total" in the
year column, and the rollup part is sorted by count descending. -/
theorem affiliation_combined_order (df : List Row) :
    affiliation_combined df = yearwise_affiliation df ++ total_affiliation df
    ∧ (yearwise_affiliation df).Sorted rowLe
    ∧ (∀ r ∈ total_affiliation df, r.year = "Total")
    ∧ (total_affiliation df).Sorted cntGe := by
  refine ⟨rfl, ?_, fun r h => total_rows_year df h, ?_⟩
  · exact List.sorted_insertionSort rowLe _
  · exact List.sorted_insertionSort cntGe _

theorem affiliation_combined_order_witness :
    (⟨"Total", "Blank Affiliation", 1⟩ : ARow)
      ∈ total_affiliation [⟨none, some "2021", none, none⟩]
    ∧ (⟨"Total", "Blank Affiliation", 1⟩ : ARow).year = "Total" :=
  ⟨by decide,
    (affiliation_combined_order [⟨none, some "2021", none, none⟩]).2.2.1 _ (by decide)⟩

/-! Facts about `hasSubstr`, `stripPy` and matched segments: a segment that
matched the institution pattern keeps, after stripping, at least the
pattern's 38 non-whitespace characters, so it can never collide with the
sentinel labels. -/

theorem hasSubstr_exists {nd : List Char} :
    ∀ {hay : List Char}, hasSubstr nd hay = true → ∃ a b, hay = a ++ nd ++ b
  | [], h => by
    simp only [hasSubstr] at h
    obtain ⟨t, ht⟩ := List.isPrefixOf_iff_prefix.mp h
    exact ⟨[], t, by simp [← ht]⟩
  | c :: tl, h => by
    simp only [hasSubstr, Bool.or_eq_true] at h
    rcases h with h | h
    · obtain ⟨t, ht⟩ := List.isPrefixOf_iff_prefix.mp h
      exact ⟨[], t, by simp [← ht]⟩
    · obtain ⟨a, b, hab⟩ := hasSubstr_exists h
      exact ⟨c :: a, b, by simp [hab]⟩

theorem rev_split (l : List Char) :
    l = (l.reverse.dropWhile isSpacePy).reverse ++ (l.reverse.takeWhile isSpacePy).reverse := by
  conv_lhs => rw [← List.reverse_reverse l]
  rw [← List.reverse_append]
  rw [List.takeWhile_append_dropWhile]

theorem stripPy_decomp (cs : List Char) :
    ∃ w1 w2, cs = w1 ++ stripPy cs ++ w2
      ∧ (∀ c ∈ w1, isSpacePy c = true) ∧ (∀ c ∈ w2, isSpacePy c = true) := by
  refine ⟨cs.takeWhile isSpacePy,
    ((cs.dropWhile isSpacePy).reverse.takeWhile isSpacePy).reverse, ?_, ?_, ?_⟩
  · have h1 := (List.takeWhile_append_dropWhile isSpacePy cs).symm
    have h2 := rev_split (cs.dropWhile isSpacePy)
    have h3 : cs = cs.takeWhile isSpacePy ++
        (stripPy cs ++ ((cs.dropWhile isSpacePy).reverse.takeWhile isSpacePy).reverse) :=
      h1.trans (congrArg (cs.takeWhile isSpacePy ++ ·) h2)
    rw [List.append_assoc]
    exact h3
  · intro c hc
    exact List.mem_takeWhile_imp hc
  · intro c hc
    rw [List.mem_reverse] at hc
    exact List.mem_takeWhile_imp hc

theorem toLower_space {c : Char} (h : isSpacePy c = true) : Char.toLower c = c := by
  have h' : c = ' ' ∨ c = '\t' ∨ c = '\n' ∨ c = '\r' ∨ c = '\x0b' ∨ c = '\x0c' :=
    of_decide_eq_true h
  rcases h' with h | h | h | h | h | h <;> subst h <;> decide

theorem lowerL_spaces {w : List Char} (h : ∀ c ∈ w, isSpacePy c = true) :
    lowerL w = w := by
  induction w with
  | nil => rfl
  | cons a w ih =>
    have ha := toLower_space (h a (List.mem_cons_self a w))
    have hw := ih (fun c hc => h c (List.mem_cons_of_mem a hc))
    show Char.toLower a :: lowerL w = a :: w
    rw [ha, hw]

theorem spaces_nonsp_zero {w : List Char} (h : ∀ c ∈ w, isSpacePy c = true) :
    w.countP (fun c => !isSpacePy c) = 0 := by
  rw [List.countP_eq_zero]
  intro a ha
  simp [h a ha]

theorem extract_some_long {x : Option String} {s : String}
    (h : extract_nitk_affiliation x = some s) : 38 ≤ s.length := by
  unfold extract_nitk_affiliation at h
  cases x with
  | none => exact Option.noConfusion h
  | some t =>
    rw [Option.map_eq_some'] at h
    obtain ⟨p, hfind, hs⟩ := h
    have hm : matchesNITK p = true := List.find?_some hfind
    unfold matchesNITK at hm
    obtain ⟨w1, w2, hdec, hw1, hw2⟩ := stripPy_decomp p.data
    rw [hdec] at hm
    have hsplit : lowerL (w1 ++ stripPy p.data ++ w2)
        = w1 ++ lowerL (stripPy p.data) ++ w2 := by
      show List.map Char.toLower (w1 ++ stripPy p.data ++ w2)
          = w1 ++ lowerL (stripPy p.data) ++ w2
      rw [List.map_append, List.map_append]
      rw [show List.map Char.toLower w1 = lowerL w1 from rfl]
      rw [show List.map Char.toLower w2 = lowerL w2 from rfl]
      rw [lowerL_spaces hw1, lowerL_spaces hw2]
      rfl
    rw [hsplit] at hm
    obtain ⟨a, b, hab⟩ := hasSubstr_exists hm
    have hc := congrArg (fun l => List.countP (fun c => !isSpacePy c) l) hab
    simp only [List.countP_append] at hc
    rw [spaces_nonsp_zero hw1, spaces_nonsp_zero hw2] at hc
    have hpat : (lowerL nitkName.data).countP (fun c => !isSpacePy c) = 38 := by decide
    rw [hpat] at hc
    have hle : (lowerL (stripPy p.data)).countP (fun c => !isSpacePy c)
        ≤ (lowerL (stripPy p.data)).length := List.countP_le_length _
    have hlen : 38 ≤ (lowerL (stripPy p.data)).length := by omega
    rw [lowerL, List.length_map] at hlen
    rw [← hs]
    exact hlen

theorem extract_ne_labels {x : Option String} {s : String}
    (h : extract_nitk_affiliation x = some s) :
    s ≠ "Blank Affiliation" ∧ s ≠ "No NITK Mention" := by
  have hl := extract_some_long h
  refine ⟨fun he => ?_, fun he => ?_⟩
  · rw [he] at hl
    exact absurd hl (by decide)
  · rw [he] at hl
    exact absurd hl (by decide)

theorem find?_eq_some_first {α : Type} {p : α → Bool} :
    ∀ {l : List α} {a : α}, l.find? p = some a →
      ∃ i, ∃ h : i < l.length, l.get ⟨i, h⟩ = a ∧ p a = true
        ∧ ∀ j (hj : j < i), p (l.get ⟨j, Nat.lt_trans hj h⟩) = false
  | [], a, h => by simp at h
  | x :: l, a, h => by
    cases hx : p x with
    | true =>
      rw [List.find?_cons_of_pos _ hx] at h
      obtain rfl : x = a := Option.some.inj h
      exact ⟨0, Nat.succ_pos _, rfl, hx, fun j hj => absurd hj (Nat.not_lt_zero j)⟩
    | false =>
      rw [List.find?_cons_of_neg _ (by simp [hx])] at h
      obtain ⟨i, hi, hget, hpa, hleast⟩ := find?_eq_some_first h
      refine ⟨i + 1, Nat.succ_lt_succ hi, ?_, hpa, ?_⟩
      · simpa using hget
      · intro j hj
        cases j with
        | zero => simpa using hx
        | succ j' =>
          have := hleast j' (Nat.lt_of_succ_lt_succ hj)
          simpa using this

/-- C1: for a present affiliation cell, classification fails exactly when no
semicolon-delimited segment matches the institution name (case-insensitive,
unanchored substring); otherwise it yields the first matching segment, in
original order, with surrounding whitespace stripped. -/
theorem classify_first_match (t : String) :
    (extract_nitk_affiliation (some t) = none ↔
      ∀ p ∈ (splitSemi t.data).map String.mk, matchesNITK p = false)
    ∧ (∀ s, extract_nitk_affiliation (some t) = some s →
        ∃ i, ∃ h : i < ((splitSemi t.data).map String.mk).length,
          matchesNITK (((splitSemi t.data).map String.mk).get ⟨i, h⟩) = true
          ∧ (∀ j (hj : j < i),
              matchesNITK (((splitSemi t.data).map String.mk).get ⟨j, Nat.lt_trans hj h⟩) = false)
          ∧ s = String.mk (stripPy (((splitSemi t.data).map String.mk).get ⟨i, h⟩).data)) := by
  constructor
  · constructor
    · intro h p hp
      unfold extract_nitk_affiliation at h
      rw [Option.map_eq_none'] at h
      rw [List.find?_eq_none] at h
      simpa using h p hp
    · intro h
      unfold extract_nitk_affiliation
      rw [Option.map_eq_none']
      rw [List.find?_eq_none]
      intro x hx
      simp [h x hx]
  · intro s hs
    unfold extract_nitk_affiliation at hs
    rw [Option.map_eq_some'] at hs
    obtain ⟨p, hfind, hp⟩ := hs
    obtain ⟨i, hi, hget, hpa, hleast⟩ := find?_eq_some_first hfind
    refine ⟨i, hi, ?_, fun j hj => hleast j hj, ?_⟩
    · rw [hget]
      exact hpa
    · rw [hget]
      exact hp.symm

theorem classify_first_match_witness :
    extract_nitk_affiliation (some "abc; def") = none :=
  (classify_first_match "abc; def").1.mpr (by decide)

/-- C2 (amended): the row label is "Blank Affiliation" exactly when the raw
affiliation cell is missing (pandas `isna`); a matched segment becomes the
label verbatim; otherwise the label is "No NITK Mention". A present empty
string is not `isna`, so it falls into the "No NITK Mention" case. -/
theorem label_affiliation_spec (a : Option String) :
    (labelAffiliation a (extract_nitk_affiliation a) = "Blank Affiliation" ↔ a = none)
    ∧ (∀ seg, extract_nitk_affiliation a = some seg →
        labelAffiliation a (extract_nitk_affiliation a) = seg)
    ∧ (∀ s, a = some s → extract_nitk_affiliation a = none →
        labelAffiliation a (extract_nitk_affiliation a) = "No NITK Mention") := by
  refine ⟨⟨?_, ?_⟩, ?_, ?_⟩
  · intro hlab
    cases a with
    | none => rfl
    | some t =>
      cases hx : extract_nitk_affiliation (some t) with
      | none =>
        rw [hx] at hlab
        simp [labelAffiliation] at hlab
      | some seg =>
        rw [hx] at hlab
        simp only [labelAffiliation] at hlab
        exact absurd hlab (extract_ne_labels hx).1
  · intro ha
    subst ha
    rfl
  · intro seg hx
    cases a with
    | none => simp [extract_nitk_affiliation] at hx
    | some t =>
      rw [hx]
      rfl
  · intro s ha hx
    subst ha
    rw [hx]
    rfl

theorem label_empty_string_counterexample :
    labelAffiliation (some "") (extract_nitk_affiliation (some "")) = "No NITK Mention"
    ∧ labelAffiliation (some "") (extract_nitk_affiliation (some "")) ≠ "Blank Affiliation" := by
  refine ⟨by decide, by decide⟩

theorem label_affiliation_spec_witness :
    extract_nitk_affiliation (some "x; National institute of technology karnataka dept")
      = some "National institute of technology karnataka dept"
    ∧ labelAffiliation (some "x; National institute of technology karnataka dept")
        (extract_nitk_affiliation (some "x; National institute of technology karnataka dept"))
      = "National institute of technology karnataka dept" :=
  ⟨by decide, (label_affiliation_spec _).2.1 _ (by decide)⟩

/-- C8: the institution-only subset is exactly the set of processed rows
whose affiliation category is a real matched segment (neither
"Blank Affiliation" nor "No NITK Mention"), taken as a sublist of the
processed dataset, so original row order and all columns are preserved. -/
theorem nitk_only_spec (df : List Row) :
    nitk_only df = (process df).filter
      (fun r => decide (r.category ≠ "Blank Affiliation" ∧ r.category ≠ "No NITK Mention"))
    ∧ (nitk_only df).Sublist (process df) := by
  constructor
  · unfold nitk_only
    apply List.filter_congr
    intro r hr
    rw [process, List.mem_map] at hr
    obtain ⟨raw, _, hraw⟩ := hr
    subst hraw
    cases hx : extract_nitk_affiliation raw.affil with
    | none =>
      cases ha : raw.affil with
      | none => simp [processRow, labelAffiliation, ha, extract_nitk_affiliation]
      | some t =>
        rw [ha] at hx
        simp [processRow, labelAffiliation, ha, hx]
    | some seg =>
      have hne := extract_ne_labels hx
      cases ha : raw.affil with
      | none =>
        rw [ha] at hx
        simp [extract_nitk_affiliation] at hx
      | some t =>
        rw [ha] at hx
        simp [processRow, labelAffiliation, ha, hx, hne.1, hne.2]
  · exact List.filter_sublist _

/-- Position `i` of `cs` starts a run of four digit characters: the regex
`\d{4}` matches there. -/
def goodAt (cs : List Char) (i : Nat) : Prop :=
  4 ≤ (cs.drop i).length ∧ ((cs.drop i).take 4).all isDigitC = true

instance (cs : List Char) (i : Nat) : Decidable (goodAt cs i) :=
  inferInstanceAs (Decidable (4 ≤ (cs.drop i).length ∧ ((cs.drop i).take 4).all isDigitC = true))

theorem goodAt_succ (c : Char) (cs : List Char) (i : Nat) :
    goodAt (c :: cs) (i + 1) ↔ goodAt cs i := by
  unfold goodAt
  rw [List.drop_succ_cons]

theorem goodAt_zero (cs : List Char) :
    goodAt cs 0 ↔ 4 ≤ cs.length ∧ (cs.take 4).all isDigitC = true := by
  unfold goodAt
  rw [List.drop_zero]

theorem findRun4_eq_none_of : ∀ (cs : List Char), (∀ i, ¬ goodAt cs i) → findRun4 cs = none
  | [], _ => rfl
  | c :: rest, h => by
    have h0 : ¬(4 ≤ (c :: rest).length ∧ ((c :: rest).take 4).all isDigitC = true) :=
      fun hc => h 0 ((goodAt_zero _).mpr hc)
    simp only [findRun4]
    rw [if_neg h0]
    exact findRun4_eq_none_of rest (fun i hi => h (i + 1) ((goodAt_succ c rest i).mpr hi))

theorem findRun4_eq_some_of : ∀ (cs : List Char) (i : Nat), goodAt cs i →
    (∀ j, j < i → ¬ goodAt cs j) →
    findRun4 cs = some (String.mk ((cs.drop i).take 4))
  | [], i, hg, _ => by
    exfalso
    unfold goodAt at hg
    simp at hg
  | c :: rest, 0, hg, _ => by
    have h0 := (goodAt_zero _).mp hg
    simp only [findRun4]
    rw [if_pos h0, List.drop_zero]
  | c :: rest, i + 1, hg, hleast => by
    have h0 : ¬(4 ≤ (c :: rest).length ∧ ((c :: rest).take 4).all isDigitC = true) :=
      fun hc => hleast 0 (Nat.succ_pos _) ((goodAt_zero _).mpr hc)
    simp only [findRun4]
    rw [if_neg h0, List.drop_succ_cons]
    exact findRun4_eq_some_of rest i ((goodAt_succ c rest i).mp hg)
      (fun j hj hgj => hleast (j + 1) (Nat.succ_lt_succ hj) ((goodAt_succ c rest j).mpr hgj))

theorem findRun4_some_shape : ∀ {cs : List Char} {s : String}, findRun4 cs = some s →
    s.length = 4 ∧ s.data.all isDigitC = true
  | [], s, h => by simp [findRun4] at h
  | c :: rest, s, h => by
    simp only [findRun4] at h
    by_cases hc : 4 ≤ (c :: rest).length ∧ ((c :: rest).take 4).all isDigitC = true
    · rw [if_pos hc] at h
      obtain rfl : String.mk ((c :: rest).take 4) = s := Option.some.inj h
      refine ⟨?_, hc.2⟩
      show ((c :: rest).take 4).length = 4
      rw [List.length_take]
      exact Nat.min_eq_left hc.1
    · rw [if_neg hc] at h
      exact findRun4_some_shape h

/-- C3: year normalization renders the cell as text and returns the first
position at which four consecutive digit characters start (even inside a
longer digit run); if no such position exists — in particular for a missing
cell — it returns "Unknown". The result is never empty. -/
theorem normalize_year_spec (x : Option String) :
    ((∀ i, ¬ goodAt (pyStr x).data i) → normalizeYear x = "Unknown")
    ∧ (∀ i, goodAt (pyStr x).data i → (∀ j, j < i → ¬ goodAt (pyStr x).data j) →
        normalizeYear x = String.mk (((pyStr x).data.drop i).take 4))
    ∧ (x = none → normalizeYear x = "Unknown")
    ∧ normalizeYear x ≠ "" := by
  refine ⟨?_, ?_, ?_, ?_⟩
  · intro h
    unfold normalizeYear
    rw [findRun4_eq_none_of _ h]
  · intro i hg hl
    unfold normalizeYear
    rw [findRun4_eq_some_of _ i hg hl]
  · intro hx
    subst hx
    rfl
  · unfold normalizeYear
    cases hf : findRun4 (pyStr x).data with
    | none => decide
    | some s =>
      have hs := findRun4_some_shape hf
      intro he
      have he' : s = "" := he
      rw [he'] at hs
      exact absurd hs.1 (by decide)

theorem normalize_year_spec_witness :
    normalizeYear (some "id 123456") = "1234" ∧ normalizeYear none = "Unknown" :=
  ⟨((normalize_year_spec (some "id 123456")).2.1 3 (by decide) (by decide)).trans (by decide),
   (normalize_year_spec none).2.2.1 rfl⟩

theorem extractDigits_none_of : ∀ (cs : List Char),
    cs.all (fun c => !isDigitC c) = true → extractDigits cs = none
  | [], _ => rfl
  | c :: rest, h => by
    rw [List.all_cons, Bool.and_eq_true] at h
    have h1 : isDigitC c = false := by simpa using h.1
    simp only [extractDigits]
    rw [if_neg (by simp [h1])]
    exact extractDigits_none_of rest h.2

theorem extractDigits_firstrun : ∀ (pre : List Char) (c : Char) (post : List Char),
    pre.all (fun c => !isDigitC c) = true → isDigitC c = true →
    extractDigits (pre ++ c :: post) = some (c :: post.takeWhile isDigitC)
  | [], c, post, _, hc => by
    simp only [List.nil_append, extractDigits]
    rw [if_pos hc]
  | p :: pre, c, post, hall, hc => by
    rw [List.all_cons, Bool.and_eq_true] at hall
    have h1 : isDigitC p = false := by simpa using hall.1
    simp only [List.cons_append, extractDigits]
    rw [if_neg (by simp [h1])]
    exact extractDigits_firstrun pre c post hall.2 hc

/-- C4: citation normalization renders the cell as text, takes the first
maximal run of digit characters and parses it; with no digit run (also for
empty or missing cells) it yields 0, and the result is a non-negative
integer. The function is total: malformed cells cannot raise. -/
theorem normalize_citation_spec (x : Option String) :
    ((pyStr x).data.all (fun c => !isDigitC c) = true → normalizeCitation x = 0)
    ∧ (∀ pre c post, (pyStr x).data = pre ++ c :: post →
        pre.all (fun c => !isDigitC c) = true → isDigitC c = true →
        normalizeCitation x = digitsToNat (c :: post.takeWhile isDigitC))
    ∧ (x = none → normalizeCitation x = 0)
    ∧ (0 : Int) ≤ (normalizeCitation x : Int) := by
  refine ⟨?_, ?_, ?_, ?_⟩
  · intro h
    unfold normalizeCitation
    rw [extractDigits_none_of _ h]
  · intro pre c post hdec hall hc
    unfold normalizeCitation
    rw [hdec, extractDigits_firstrun pre c post hall hc]
  · intro hx
    subst hx
    rfl
  · exact Int.natCast_nonneg _

theorem normalize_citation_spec_witness :
    normalizeCitation (some "v2: cited 10 times") = 2
    ∧ normalizeCitation (some "n/a") = 0 :=
  ⟨((normalize_citation_spec (some "v2: cited 10 times")).2.1 ['v'] '2'
      (": cited 10 times").data (by decide) (by decide) (by decide)).trans (by decide),
   (normalize_citation_spec (some "n/a")).1 (by decide)⟩

/-- C9 (amended): the pipeline appends the derived `NITK_Affiliation` and
`Affiliation_Category` columns and leaves the affiliation and department
columns untouched, but it overwrites the year and cited-by columns in place
with their normalized values, so the raw year and citation values do not
survive in the dataframe the reports are built from. -/
theorem process_columns (df : List Row) :
    (process df).map RowF.affil = df.map Row.affil
    ∧ (process df).map RowF.dept = df.map Row.dept
    ∧ (process df).map RowF.year = df.map (fun r => normalizeYear r.year)
    ∧ (process df).map RowF.cited = df.map (fun r => normalizeCitation r.cited)
    ∧ (process df).map RowF.nitk = df.map (fun r => extract_nitk_affiliation r.affil)
    ∧ (process df).map RowF.category
        = df.map (fun r => labelAffiliation r.affil (extract_nitk_affiliation r.affil)) := by
  unfold process
  simp only [List.map_map]
  exact ⟨rfl, rfl, rfl, rfl, rfl, rfl⟩

/-- C9 counterexample: on a concrete one-row dataset the year and cited-by
columns of the post-pipeline dataframe no longer hold their raw values. -/
theorem process_mutates_counterexample :
    (process [⟨none, some "Published in 2023, vol 4", none, some "Cited by 10"⟩]).map RowF.year
      = ["2023"]
    ∧ [(⟨none, some "Published in 2023, vol 4", none, some "Cited by 10"⟩ : Row)].map Row.year
      = [some "Published in 2023, vol 4"]
    ∧ ("2023" : String) ≠ "Published in 2023, vol 4"
    ∧ (process [⟨none, some "Published in 2023, vol 4", none, some "Cited by 10"⟩]).map RowF.cited
      = [10]
    ∧ [(⟨none, some "Published in 2023, vol 4", none, some "Cited by 10"⟩ : Row)].map Row.cited
      = [some "Cited by 10"] :=
  ⟨by decide, rfl, by decide, by decide, rfl⟩

/-- Forbidden adjacency for C10: an "Unknown"-year row may never precede a
4-digit-year row in the combined report. -/
def yearOrderOK (a b : ARow) : Prop := ¬(a.year = "Unknown" ∧ isYear4 b.year = true)

/-- Forbidden adjacency for C10: a "Total" rollup row may never precede an
"Unknown"-year row in the combined report. -/
def totalOrderOK (a b : ARow) : Prop := ¬(a.year = "Total" ∧ b.year = "Unknown")

theorem normalizeYear_shape (x : Option String) :
    isYear4 (normalizeYear x) = true ∨ normalizeYear x = "Unknown" := by
  unfold normalizeYear
  cases hf : findRun4 (pyStr x).data with
  | none => exact Or.inr rfl
  | some s =>
    left
    have hs := findRun4_some_shape hf
    unfold isYear4
    rw [Bool.and_eq_true]
    refine ⟨?_, hs.2⟩
    rw [hs.1]
    rfl

theorem normalizeYear_ne_total (x : Option String) : normalizeYear x ≠ "Total" := by
  rcases normalizeYear_shape x with h | h
  · intro he
    rw [he] at h
    exact absurd h (by decide)
  · rw [h]
    decide

theorem isYear4_strLt_unknown {s : String} (h : isYear4 s = true) :
    strLt s "Unknown" = true := by
  unfold isYear4 at h
  rw [Bool.and_eq_true] at h
  have hlen' : s.length = 4 := by simpa using h.1
  have hlen : s.data.length = 4 := hlen'
  have hall := h.2
  obtain ⟨a, l1, h1⟩ : ∃ a l, s.data = a :: l := by
    cases hd : s.data with
    | nil => rw [hd] at hlen; simp at hlen
    | cons a l => exact ⟨a, l, rfl⟩
  have hdig : isDigitC a = true := by
    rw [h1] at hall
    rw [List.all_cons, Bool.and_eq_true] at hall
    exact hall.1
  have hlt : a < 'U' := lt_of_le_of_lt (of_decide_eq_true hdig).2 (by decide)
  unfold strLt
  rw [h1]
  show lexLtB (a :: l1) ['U', 'n', 'k', 'n', 'o', 'w', 'n'] = true
  simp [lexLtB, hlt]

theorem yearwise_rows_year (df : List Row) {r : ARow}
    (h : r ∈ yearwise_affiliation df) : ∃ x, r.year = normalizeYear x := by
  unfold yearwise_affiliation at h
  rw [List.mem_insertionSort, List.mem_map] at h
  obtain ⟨k, hk, hkr⟩ := h
  rw [List.mem_insertionSort, List.mem_dedup, List.mem_map] at hk
  obtain ⟨rf, hrf, hkeq⟩ := hk
  rw [process, List.mem_map] at hrf
  obtain ⟨raw, _, hproc⟩ := hrf
  subst hkr
  subst hkeq
  subst hproc
  exact ⟨raw.year, rfl⟩

/-- C10: every normalized year is a 4-digit numeral or "Unknown", so the
rollup marker "Total" never collides with a year value; in the combined
report no "Unknown" row ever precedes a 4-digit-year row, and no "Total"
rollup row ever precedes an "Unknown" row. -/
theorem year_sentinel_order :
    (∀ x, isYear4 (normalizeYear x) = true ∨ normalizeYear x = "Unknown")
    ∧ (∀ x, normalizeYear x ≠ "Total")
    ∧ (∀ df, (affiliation_combined df).Pairwise yearOrderOK
        ∧ (affiliation_combined df).Pairwise totalOrderOK) := by
  refine ⟨normalizeYear_shape, normalizeYear_ne_total, ?_⟩
  intro df
  constructor
  · unfold affiliation_combined
    rw [List.pairwise_append]
    refine ⟨?_, ?_, ?_⟩
    · have hs : List.Sorted rowLe (yearwise_affiliation df) :=
        List.sorted_insertionSort rowLe _
      refine List.Pairwise.imp ?_ hs
      intro a b hab
      rintro ⟨hU, h4⟩
      simp only [rowLe, rowLeB, Bool.or_eq_true, Bool.and_eq_true, beq_iff_eq,
        decide_eq_true_eq] at hab
      rcases hab with hlt | ⟨heq, _⟩
      · rw [hU] at hlt
        rw [strLt_asymm (isYear4_strLt_unknown h4)] at hlt
        cases hlt
      · rw [hU] at heq
        rw [← heq] at h4
        exact absurd h4 (by decide)
    · apply List.pairwise_of_forall_mem_list
      intro a _ b hb
      rintro ⟨_, h4⟩
      rw [total_rows_year df hb] at h4
      exact absurd h4 (by decide)
    · intro a _ b hb
      rintro ⟨_, h4⟩
      rw [total_rows_year df hb] at h4
      exact absurd h4 (by decide)
  · unfold affiliation_combined
    rw [List.pairwise_append]
    refine ⟨?_, ?_, ?_⟩
    · apply List.pairwise_of_forall_mem_list
      intro a ha b _
      rintro ⟨hT, _⟩
      obtain ⟨x, hx⟩ := yearwise_rows_year df ha
      rw [hx] at hT
      exact normalizeYear_ne_total x hT
    · apply List.pairwise_of_forall_mem_list
      intro a _ b hb
      rintro ⟨_, hU⟩
      rw [total_rows_year df hb] at hU
      exact absurd hU (by decide)
    · intro a ha b _
      rintro ⟨hT, _⟩
      obtain ⟨x, hx⟩ := yearwise_rows_year df ha
      rw [hx] at hT
      exact normalizeYear_ne_total x hT

theorem year_sentinel_order_witness :
    isYear4 (normalizeYear (some "vol 2021 issue")) = true
    ∧ normalizeYear (some "no digits") ≠ "Total"
    ∧ affiliation_combined
        [⟨none, some "2021", none, none⟩, ⟨none, some "no digits", none, none⟩]
      = [⟨"2021", "Blank Affiliation", 1⟩, ⟨"Unknown", "Blank Affiliation", 1⟩,
         ⟨"Total", "Blank Affiliation", 2⟩]
    ∧ totalOrderOK ⟨"2021", "Blank Affiliation", 1⟩ ⟨"Unknown", "Blank Affiliation", 1⟩ := by
  refine ⟨Or.resolve_right (year_sentinel_order.1 (some "vol 2021 issue")) (by decide),
    year_sentinel_order.2.1 (some "no digits"), by decide, ?_⟩
  have hp := (year_sentinel_order.2.2
    [⟨none, some "2021", none, none⟩, ⟨none, some "no digits", none, none⟩]).2
  rw [show affiliation_combined
      [⟨none, some "2021", none, none⟩, ⟨none, some "no digits", none, none⟩]
    = [⟨"2021", "Blank Affiliation", 1⟩, ⟨"Unknown", "Blank Affiliation", 1⟩,
       ⟨"Total", "Blank Affiliation", 2⟩] from by decide] at hp
  exact (List.pairwise_cons.mp hp).1 _ (by simp)
